import Mathlib

/-!
Verification of the Titanic survival pipeline (`solution.py`).

The pipeline is embedded shallowly: a pandas `DataFrame` of passengers is a
`List Record`, the derived feature matrix is a list of named columns, and the
external scikit-learn regressor/classifier collaborators are parameters
(functions), since the spec treats them as external interfaces.  All in-place
mutations of the frame performed by `extract_features` (cabin collapse,
fillna, age imputation, the added `FamilySize` column) are made observable by
returning the mutated record list alongside the feature columns.
-/

namespace Titanic

/-- One passenger record (one row of the input table).  Optional fields model
columns that may hold missing values (pandas `NaN`).  `familySize` models the
`FamilySize` column that `extract_features` adds to the frame; it is `none`
on freshly loaded data. -/
structure Record where
  passengerId : Int
  survived : Option Int
  pclass : Int
  sex : String
  age : Option ℚ
  sibsp : ℚ
  parch : ℚ
  fare : Option ℚ
  cabin : Option String
  embarked : Option String
  familySize : Option ℚ
deriving DecidableEq

/-- One numeric entry of the derived feature matrix.  A `val x` entry is a
plain number (the 0/1 one-hot indicators).  A `scaled x mean v` entry stands
for the number `(x - mean) / sqrt v` produced by `StandardScaler` (with scale
1 when `v = 0`, as scikit-learn substitutes); it is kept in this symbolic
form because the square root of a rational is irrational in general and no
verified property depends on the numeric value of a scaled entry, only on
its presence and position. -/
inductive Entry where
  | val (x : ℚ)
  | scaled (x mean v : ℚ)
deriving DecidableEq

/-- A named column of a data frame. -/
abbrev Col := String × List Entry

/-- Insert into a `le`-sorted list (helper for `sortLe`). -/
def insertLe (le : α → α → Bool) (a : α) : List α → List α
  | [] => [a]
  | b :: l => if le a b then a :: b :: l else b :: insertLe le a l

/-- Insertion sort by the boolean order `le`, modelling the sorted category
order `pd.get_dummies` uses for its indicator columns. -/
def sortLe (le : α → α → Bool) : List α → List α
  | [] => []
  | a :: l => insertLe le a (sortLe le l)

/-- Boolean `≤` on strings (category sort order for string columns). -/
def strLe (a b : String) : Bool := !(decide (b < a))

/-- Boolean `≤` on integers (category sort order for `Pclass`). -/
def intLe (a b : Int) : Bool := decide (a ≤ b)

/-- Boolean `≤` on rationals (used by the pandas median). -/
def ratLe (a b : ℚ) : Bool := decide (a ≤ b)

/-- The indicator columns `pd.get_dummies(series, prefix=pre)` derives for one
categorical column: one 0/1 column per distinct observed value, in sorted
order, named `pre ++ "_" ++ value`.  The categories are inferred from the
data actually present, exactly as `get_dummies` does. -/
def dummy_cols [DecidableEq α] (le : α → α → Bool) (toStr : α → String)
    (pre : String) (vals : List α) : List Col :=
  (sortLe le vals.dedup).map (fun c =>
    (pre ++ "_" ++ toStr c, vals.map (fun v => Entry.val (if v = c then 1 else 0))))

/-- The pandas `Series.median()`: sort the (non-missing) values; middle value
for odd length, average of the two middle values for even length, `none`
(`NaN`) for an empty series. -/
def pd_median (xs : List ℚ) : Option ℚ :=
  let s := sortLe ratLe xs
  let n := s.length
  if n = 0 then none
  else if n % 2 = 1 then s.get? (n / 2)
  else match s.get? (n / 2 - 1), s.get? (n / 2) with
    | some a, some b => some ((a + b) / 2)
    | _, _ => none

/-- The body of `scale_data`: `StandardScaler` fit on the column (population
mean and variance) followed by transform.  Each output entry is the symbolic
`scaled x mean v`, denoting `(x - mean) / sqrt v` (scale 1 when `v = 0`). -/
def scale_data (vals : List ℚ) : List Entry :=
  let n : ℚ := vals.length
  let mean := vals.sum / n
  let v := (vals.map (fun x => (x - mean) ^ 2)).sum / n
  vals.map (fun x => Entry.scaled x mean v)

/-- `scale_data(data, param)` returns a one-column frame named `param`. -/
def scale_col (param : String) (vals : List ℚ) : Col := (param, scale_data vals)

/-- `set_cabin_type`: rewrite the `Cabin` column in place — every non-missing
value becomes `"Yes"` (first `.loc` assignment), every missing value becomes
`"No"` (second `.loc` assignment). -/
def set_cabin_type (data : List Record) : List Record :=
  data.map (fun r => { r with cabin := some (if r.cabin.isSome then "Yes" else "No") })

/-- The regression feature row used by `fill_missing_ages`: columns
`SibSp, Parch, Fare, Pclass` (columns `1:` of its `age_data` frame). -/
structure AgeX where
  sibsp : ℚ
  parch : ℚ
  fare : Option ℚ
  pclass : Int
deriving DecidableEq

/-- The external `RandomForestRegressor` collaborator, abstracted as a
function from its fitted training set (feature row, age) to a per-row
prediction; `predict` on a matrix is its row-wise application. -/
def Reg : Type := List (AgeX × ℚ) → AgeX → ℚ

/-- Project a record onto the age-regression features. -/
def ageX (r : Record) : AgeX := ⟨r.sibsp, r.parch, r.fare, r.pclass⟩

/-- `fill_missing_ages`: split the frame into the rows with an age
(`with_age`, the training set, features `X` and target `Y`) and the rows
without; fit the regressor on the former and write its predictions into the
`Age` column of the latter, at their original positions.  (The source also
builds a dummy one-row frame when no age is missing, but the subsequent
`.loc` assignment then targets an empty row selection, so no record
changes; the fitted regressor that the source additionally returns is not
used by any caller except being discarded.) -/
def fill_missing_ages (reg : Reg) (data : List Record) : List Record :=
  let with_age := data.filter (fun r => r.age.isSome)
  let train := with_age.map (fun r => (ageX r, r.age.getD 0))
  data.map (fun r =>
    match r.age with
    | some _ => r
    | none => { r with age := some (reg train (ageX r)) })

/-- Result of `extract_features`: the nine column groups that
`pd.concat([pclass, sex, cabin, embarked, age, fare, sibsp, parch,
family_size], axis=1)` joins, plus two observations of the call's side
effects — the mutated caller frame (`out`) and how many times the Imputer
was invoked (`imputerCalls`). -/
structure ExtractResult where
  pclassCols : List Col
  sexCols : List Col
  cabinCols : List Col
  embarkedCols : List Col
  ageCol : Col
  fareCol : Col
  sibspCol : Col
  parchCol : Col
  familySizeCol : Col
  out : List Record
  imputerCalls : Nat

/-- The concatenated feature matrix, in the fixed order of the source's
`pd.concat` call. -/
def ExtractResult.cols (F : ExtractResult) : List Col :=
  F.pclassCols ++ F.sexCols ++ F.cabinCols ++ F.embarkedCols
    ++ [F.ageCol, F.fareCol, F.sibspCol, F.parchCol, F.familySizeCol]

/-- `extract_features`, step by step as in the source: collapse `Cabin`,
fill missing `Embarked` with `"S"`, fill missing `Fare` with the median of
the current frame's fares, invoke `fill_missing_ages` if (and only if) any
age is missing, derive `FamilySize`, build the one-hot groups with
`get_dummies` and the five standard-scaled numeric columns. -/
def extract_features (reg : Reg) (data : List Record) : ExtractResult :=
  let d1 := set_cabin_type data
  let d2 := d1.map (fun r => { r with embarked := some (r.embarked.getD "S") })
  let med := pd_median (d2.filterMap (fun r => r.fare))
  let d3 := d2.map (fun r =>
    { r with fare := match r.fare with | some f => some f | none => med })
  let anyMissing := d3.any (fun r => r.age.isNone)
  let d4 := if anyMissing then fill_missing_ages reg d3 else d3
  let d5 := d4.map (fun r => { r with familySize := some (r.sibsp + r.parch) })
  { pclassCols := dummy_cols intLe toString "Pclass" (d4.map (fun r => r.pclass))
    sexCols := dummy_cols strLe id "Sex" (d4.map (fun r => r.sex))
    cabinCols := dummy_cols strLe id "Cabin" (d4.map (fun r => r.cabin.getD ""))
    embarkedCols := dummy_cols strLe id "Embarked" (d4.map (fun r => r.embarked.getD ""))
    ageCol := scale_col "Age" (d5.map (fun r => r.age.getD 0))
    fareCol := scale_col "Fare" (d5.map (fun r => r.fare.getD 0))
    sibspCol := scale_col "SibSp" (d5.map (fun r => r.sibsp))
    parchCol := scale_col "Parch" (d5.map (fun r => r.parch))
    familySizeCol := scale_col "FamilySize" (d5.map (fun r => r.familySize.getD 0))
    out := d5
    imputerCalls := if anyMissing then 1 else 0 }

/-- Find a column by name in a column list. -/
def lookupCol (name : String) (cols : List Col) : Option Col :=
  cols.find? (fun c => c.1 == name)

/-- `features.shape[0]`: the row count of the frame. -/
def frame_rows (cols : List Col) : Nat :=
  ((cols.head?).map (fun c => c.2.length)).getD 0

/-- Row `i` of a column-structured frame. -/
def row_at (cols : List Col) (i : Nat) : List Entry :=
  cols.filterMap (fun c => c.2.get? i)

/-- `features.iloc[idx, :]`: row selection, row-major. -/
def select_rows (cols : List Col) (idx : List Nat) : List (List Entry) :=
  idx.map (row_at cols)

/-- `KFold` fold sizes: `n // k`, plus one for the first `n % k` folds. -/
def fold_size (n k i : Nat) : Nat := n / k + if i < n % k then 1 else 0

/-- `KFold` fold start offsets (`current`, advanced by each fold's size). -/
def fold_start (n k : Nat) : Nat → Nat
  | 0 => 0
  | i + 1 => fold_start n k i + fold_size n k i

/-- Test indices of fold `i` of `KFold(n, n_folds=k, shuffle=False)`:
the `i`-th contiguous block of `range(n)`. -/
def kf_test (n k i : Nat) : List Nat :=
  (List.range (fold_size n k i)).map (fun j => fold_start n k i + j)

/-- All `k` test-index blocks, in fold order. -/
def kf_tests (n k : Nat) : List (List Nat) := (List.range k).map (kf_test n k)

/-- Train indices of fold `i`: the complement of the test block within
`range(n)` (sklearn's negated boolean mask). -/
def kf_train (n k i : Nat) : List Nat :=
  (List.range n).filter (fun j => !((kf_test n k i).contains j))

/-- First thresholding mask: `test_prediction[test_prediction > 0.5] = 1`. -/
def threshold_up (v : List ℚ) : List ℚ := v.map (fun x => if 1/2 < x then 1 else x)

/-- Second thresholding mask: `test_prediction[test_prediction <= 0.5] = 0`. -/
def threshold_down (v : List ℚ) : List ℚ := v.map (fun x => if x ≤ 1/2 then 0 else x)

/-- Combination of the per-classifier prediction vectors of one fold
(lines 149-154 of the source): start from the first vector, add the rest
elementwise, divide by the number of classifiers (numpy true division),
then apply the two thresholding masks in order. -/
def combine : List (List ℚ) → List ℚ
  | [] => []
  | p :: ps =>
    let s := ps.foldl (fun acc q => acc.zipWith (fun a b => a + b) q) p
    let m := s.map (fun x => x / (((p :: ps).length : ℕ) : ℚ))
    threshold_down (threshold_up m)

/-- The external classifier collaborator: `fit` on (train matrix, train
labels) followed by `predict` on a test matrix, abstracted as one function
of the three. -/
def Clf : Type := List (List Entry) → List ℚ → List (List Entry) → List ℚ

/-- The ground-truth label vector `data['Survived']` as numbers. -/
def labels_of (data : List Record) : List ℚ :=
  data.map (fun r => ((r.survived.getD 0 : Int) : ℚ))

/-- One fold of the cross-validation loop: fit/predict every classifier on
the fold's train/test rows and combine the prediction vectors. -/
def cv_fold_prediction (algs : List Clf) (cols : List Col) (labels : List ℚ)
    (tr te : List Nat) : List ℚ :=
  combine (algs.map (fun alg =>
    alg (select_rows cols tr) (tr.map (fun i => labels.getD i 0)) (select_rows cols te)))

/-- The concatenated prediction vector of `cross_validation_evaluation`
(`np.concatenate(predictions)` over the three folds, in fold order). -/
def cv_predictions (reg : Reg) (algs : List Clf) (data : List Record) : List ℚ :=
  let F := (extract_features reg data).cols
  let n := frame_rows F
  ((List.range 3).map (fun i =>
    cv_fold_prediction algs F (labels_of data) (kf_train n 3 i) (kf_test n 3 i))).flatten

/-- `cross_validation_evaluation`: accuracy
`1 - sum(abs(predictions - Survived)) / data.shape[0]`. -/
def cross_validation_evaluation (reg : Reg) (algs : List Clf) (data : List Record) : ℚ :=
  let preds := cv_predictions reg algs data
  let err := ((preds.zip (labels_of data)).map (fun p => |p.1 - p.2|)).sum
  1 - err / (data.length : ℚ)

/-- `submission`: extract features of the held-out frame, predict with each
fitted classifier (abstracted as matrix-to-vector functions), combine with
the same averaging and thresholding, and pair with the passenger ids.  The
returned list models the two-column frame written to `Titanic.csv`. -/
def submission (reg : Reg) (classifiers : List (List (List Entry) → List ℚ))
    (data : List Record) : List (Int × ℚ) :=
  let F := (extract_features reg data).cols
  let allRows := select_rows F (List.range (frame_rows F))
  let tp := combine (classifiers.map (fun c => c allRows))
  (data.map (fun r => r.passengerId)).zip tp

/-! Helper definitions used only to state and prove lemmas about the
pipeline: per-record forms of the frame transformations, and concrete
records and collaborators for witnesses and counterexamples. -/

/-- The collapsed cabin value `set_cabin_type` writes for a record. -/
def cabT (r : Record) : String := if r.cabin.isSome then "Yes" else "No"

/-- The embarkation port after the `fillna("S")` step. -/
def embF (r : Record) : String := r.embarked.getD "S"

/-- The median fare of a frame (over the non-missing fares). -/
def med_of (data : List Record) : Option ℚ :=
  pd_median (data.filterMap (fun r => r.fare))

/-- Steps 1-3 of `extract_features` on one record: collapse cabin, fill
embarked with `"S"`, fill fare with the median `m` of the frame. -/
def step123 (m : Option ℚ) (r : Record) : Record :=
  { r with cabin := some (cabT r), embarked := some (embF r),
           fare := match r.fare with | some f => some f | none => m }

/-- The per-record age fill of `fill_missing_ages` with a fixed fitted
training set. -/
def fillG (train : List (AgeX × ℚ)) (reg : Reg) (r : Record) : Record :=
  match r.age with
  | some _ => r
  | none => { r with age := some (reg train (ageX r)) }

/-- Step 4 of `extract_features` on one record: the age fill, applied only
when the frame had a missing age (`b`). -/
def step4 (reg : Reg) (b : Bool) (train : List (AgeX × ℚ)) (r : Record) : Record :=
  if b then fillG train reg r else r

/-- Step 5 of `extract_features` on one record: add the `FamilySize`
column. -/
def step5 (r : Record) : Record := { r with familySize := some (r.sibsp + r.parch) }

/-- Whether the frame has any missing age (the imputation guard). -/
def any_missing (data : List Record) : Bool := data.any (fun r => r.age.isNone)

/-- The fitted training set of the age regressor for a given frame (built
from the frame after steps 1-3). -/
def train_of (data : List Record) : List (AgeX × ℚ) :=
  (((data.map (step123 (med_of data))).filter (fun r => r.age.isSome)).map
    (fun r => (ageX r, r.age.getD 0)))

/-- The complete per-record effect of one `extract_features` call on the
caller's frame. -/
def outFun (reg : Reg) (data : List Record) (r : Record) : Record :=
  step5 (step4 reg (any_missing data) (train_of data) (step123 (med_of data) r))

/-- The shape of one column: its name and row count. -/
def col_shape (c : Col) : String × Nat := (c.1, c.2.length)

/-- The shape of a frame: the list of column names with their row counts
(`df.shape` refined with the column labels). -/
def frame_shape (cols : List Col) : List (String × Nat) := cols.map col_shape

/-- The frame after steps 1-3 of `extract_features`. -/
def d3x (data : List Record) : List Record := data.map (step123 (med_of data))

/-- The frame after step 4 of `extract_features` (conditional age fill). -/
def d4x (reg : Reg) (data : List Record) : List Record :=
  if any_missing data then fill_missing_ages reg (d3x data) else d3x data

/-- The frame after step 5 of `extract_features` (`FamilySize` added); this
is the final state of the caller's frame. -/
def d5x (reg : Reg) (data : List Record) : List Record := (d4x reg data).map step5

/-- A concrete regressor used for witnesses and counterexamples. -/
def reg0 : Reg := fun _ _ => 0

/-- A concrete classifier (predicts 0 for every test row). -/
def clf0 : Clf := fun _ _ te => te.map (fun _ => 0)

/-- A concrete fitted classifier for `submission` witnesses. -/
def pred0 : List (List Entry) → List ℚ := fun m => m.map (fun _ => 0)

/-- A concrete fully-populated passenger record (cabin value `"C85"`). -/
def r0 : Record :=
  { passengerId := 1, survived := some 0, pclass := 3, sex := "male", age := some 30,
    sibsp := 1, parch := 0, fare := some 7, cabin := some "C85", embarked := some "S",
    familySize := none }

/-- A concrete record with every field present. -/
def rA : Record :=
  { passengerId := 2, survived := some 1, pclass := 1, sex := "female", age := some 40,
    sibsp := 0, parch := 2, fare := some 80, cabin := none, embarked := some "C",
    familySize := none }

/-- `rA` with its age removed. -/
def rA' : Record := { rA with age := none }

/-- A concrete record with missing age, cabin and embarked but all other
fields present (end-to-end scenario B of the spec). -/
def rB : Record :=
  { passengerId := 3, survived := some 0, pclass := 2, sex := "male", age := none,
    sibsp := 0, parch := 0, fare := some 8, cabin := none, embarked := none,
    familySize := none }

/-- A concrete three-record frame in which all ten one-hot categories
(3 classes, 2 sexes, 2 cabin states, 3 ports) occur. -/
def dataFull : List Record :=
  [{ passengerId := 10, survived := some 1, pclass := 1, sex := "male", age := some 20,
     sibsp := 0, parch := 0, fare := some 10, cabin := some "A1", embarked := some "C",
     familySize := none },
   { passengerId := 11, survived := some 0, pclass := 2, sex := "female", age := some 30,
     sibsp := 1, parch := 0, fare := some 20, cabin := none, embarked := some "Q",
     familySize := none },
   { passengerId := 12, survived := some 1, pclass := 3, sex := "male", age := some 40,
     sibsp := 0, parch := 1, fare := some 30, cabin := none, embarked := some "S",
     familySize := none }]

/-! Basic lemmas about the insertion sort and the one-hot columns. -/

lemma length_insertLe (le : α → α → Bool) (a : α) (l : List α) :
    (insertLe le a l).length = l.length + 1 := by
  induction l with
  | nil => rfl
  | cons b t ih => by_cases h : le a b <;> simp [insertLe, h, ih]

lemma length_sortLe (le : α → α → Bool) (l : List α) :
    (sortLe le l).length = l.length := by
  induction l with
  | nil => rfl
  | cons a t ih => simp [sortLe, length_insertLe, ih]

lemma mem_insertLe (le : α → α → Bool) (a b : α) (l : List α) :
    b ∈ insertLe le a l ↔ b = a ∨ b ∈ l := by
  induction l with
  | nil => simp [insertLe]
  | cons c t ih => by_cases h : le a c <;> simp [insertLe, h, ih] <;> tauto

lemma mem_sortLe (le : α → α → Bool) (a : α) (l : List α) :
    a ∈ sortLe le l ↔ a ∈ l := by
  induction l with
  | nil => simp [sortLe]
  | cons b t ih => simp [sortLe, mem_insertLe, ih]

lemma dummy_cols_length [DecidableEq α] (le : α → α → Bool) (toStr : α → String)
    (pre : String) (vals : List α) :
    (dummy_cols le toStr pre vals).length = vals.dedup.length := by
  simp [dummy_cols, length_sortLe]

lemma dummy_cols_entries [DecidableEq α] (le : α → α → Bool) (toStr : α → String)
    (pre : String) (vals : List α) :
    ∀ c ∈ dummy_cols le toStr pre vals, c.2.length = vals.length := by
  intro c hc
  simp only [dummy_cols, List.mem_map] at hc
  obtain ⟨a, -, rfl⟩ := hc
  simp

lemma string_append_inj (s t u : String) (h : s ++ t = s ++ u) : t = u := by
  have h2 : (s ++ t).data = (s ++ u).data := by rw [h]
  rw [String.data_append, String.data_append] at h2
  exact String.ext (List.append_cancel_left h2)

lemma find_dummy_aux [DecidableEq α] (toStr : α → String) (pre : String)
    (vals : List α) (c : α) :
    ∀ l : List α, c ∈ l → (∀ b ∈ l, toStr b = toStr c → b = c) →
    List.find? (fun col => col.1 == pre ++ "_" ++ toStr c)
        (l.map (fun a => ((pre ++ "_" ++ toStr a : String),
          vals.map (fun v => Entry.val (if v = a then 1 else 0)))))
      = some (pre ++ "_" ++ toStr c,
          vals.map (fun v => Entry.val (if v = c then 1 else 0))) := by
  intro l
  induction l with
  | nil => intro hc _; cases hc
  | cons a t ih =>
    intro hc hinj
    by_cases h : toStr a = toStr c
    · have ha : a = c := hinj a (by simp) h
      subst ha
      simp
    · have hne : ((pre ++ "_" ++ toStr a : String) == pre ++ "_" ++ toStr c) = false := by
        simp only [beq_eq_false_iff_ne, ne_eq]
        intro he
        exact h (string_append_inj (pre ++ "_") _ _ he)
      have hct : c ∈ t := by
        cases hc with
        | head => exact absurd rfl h
        | tail _ h2 => exact h2
      simp only [List.map_cons]
      rw [List.find?_cons_of_neg _ (by simp [hne])]
      exact ih hct (fun b hb => hinj b (List.mem_cons_of_mem a hb))

lemma find_dummy [DecidableEq α] (le : α → α → Bool) (toStr : α → String)
    (pre : String) (vals : List α) (c : α) (hc : c ∈ vals)
    (hinj : ∀ b ∈ vals, toStr b = toStr c → b = c) :
    lookupCol (pre ++ "_" ++ toStr c) (dummy_cols le toStr pre vals)
      = some (pre ++ "_" ++ toStr c,
          vals.map (fun v => Entry.val (if v = c then 1 else 0))) := by
  have hc' : c ∈ sortLe le vals.dedup := by
    rw [mem_sortLe]
    simpa using hc
  have hmem : ∀ b ∈ sortLe le vals.dedup, b ∈ vals := by
    intro b hb
    rw [mem_sortLe] at hb
    exact List.mem_dedup.mp hb
  unfold lookupCol dummy_cols
  exact find_dummy_aux toStr pre vals c _ hc' (fun b hb => hinj b (hmem b hb))

/-! Structural lemmas about `fill_missing_ages` and `extract_features`. -/

lemma fill_missing_ages_eq (reg : Reg) (d : List Record) :
    fill_missing_ages reg d =
      d.map (fillG ((d.filter (fun r => r.age.isSome)).map
        (fun r => (ageX r, r.age.getD 0))) reg) := by
  unfold fill_missing_ages fillG
  rfl

lemma fillG_spec (train : List (AgeX × ℚ)) (reg : Reg) (r : Record) :
    ∃ a : Option ℚ, fillG train reg r = { r with age := a } ∧ a.isSome ∧
      (r.age.isSome → a = r.age) := by
  rcases r with ⟨pid, surv, pc, sx, age, sb, pa, fr, cb, em, fs⟩
  cases age with
  | none =>
    exact ⟨some (reg train (ageX ⟨pid, surv, pc, sx, none, sb, pa, fr, cb, em, fs⟩)),
      rfl, rfl, by simp⟩
  | some x => exact ⟨some x, rfl, rfl, fun _ => rfl⟩

lemma extract_features_def (reg : Reg) (data : List Record) :
    extract_features reg data =
      { pclassCols := dummy_cols intLe toString "Pclass" ((d4x reg data).map (fun r => r.pclass))
        sexCols := dummy_cols strLe id "Sex" ((d4x reg data).map (fun r => r.sex))
        cabinCols := dummy_cols strLe id "Cabin" ((d4x reg data).map (fun r => r.cabin.getD ""))
        embarkedCols := dummy_cols strLe id "Embarked" ((d4x reg data).map (fun r => r.embarked.getD ""))
        ageCol := scale_col "Age" ((d5x reg data).map (fun r => r.age.getD 0))
        fareCol := scale_col "Fare" ((d5x reg data).map (fun r => r.fare.getD 0))
        sibspCol := scale_col "SibSp" ((d5x reg data).map (fun r => r.sibsp))
        parchCol := scale_col "Parch" ((d5x reg data).map (fun r => r.parch))
        familySizeCol := scale_col "FamilySize" ((d5x reg data).map (fun r => r.familySize.getD 0))
        out := d5x reg data
        imputerCalls := if any_missing data then 1 else 0 } := by
  simp only [extract_features, d5x, d4x, d3x, any_missing, med_of, set_cabin_type,
    List.map_map, List.filterMap_map, List.any_map]
  rfl

lemma d4x_map_proj (reg : Reg) (data : List Record) (f : Record → β)
    (hf : ∀ (r : Record) (a : Option ℚ), f { r with age := a } = f r) :
    (d4x reg data).map f = (d3x data).map f := by
  unfold d4x
  cases any_missing data with
  | false => simp
  | true =>
    simp only [if_pos]
    rw [fill_missing_ages_eq, List.map_map]
    apply List.map_congr_left
    intro r _
    obtain ⟨a, he, -, -⟩ := fillG_spec
      (((d3x data).filter (fun r => r.age.isSome)).map (fun r => (ageX r, r.age.getD 0))) reg r
    simp only [Function.comp_apply]
    rw [he, hf]

lemma extract_pclassCols (reg : Reg) (data : List Record) :
    (extract_features reg data).pclassCols
      = dummy_cols intLe toString "Pclass" (data.map (fun r => r.pclass)) := by
  rw [extract_features_def]
  show dummy_cols intLe toString "Pclass" ((d4x reg data).map (fun r => r.pclass)) = _
  rw [d4x_map_proj reg data (fun r => r.pclass) (fun _ _ => rfl)]
  unfold d3x
  rw [List.map_map]
  rfl

lemma extract_sexCols (reg : Reg) (data : List Record) :
    (extract_features reg data).sexCols
      = dummy_cols strLe id "Sex" (data.map (fun r => r.sex)) := by
  rw [extract_features_def]
  show dummy_cols strLe id "Sex" ((d4x reg data).map (fun r => r.sex)) = _
  rw [d4x_map_proj reg data (fun r => r.sex) (fun _ _ => rfl)]
  unfold d3x
  rw [List.map_map]
  rfl

lemma extract_cabinCols (reg : Reg) (data : List Record) :
    (extract_features reg data).cabinCols
      = dummy_cols strLe id "Cabin" (data.map cabT) := by
  rw [extract_features_def]
  show dummy_cols strLe id "Cabin" ((d4x reg data).map (fun r => r.cabin.getD "")) = _
  rw [d4x_map_proj reg data (fun r => r.cabin.getD "") (fun _ _ => rfl)]
  unfold d3x
  rw [List.map_map]
  rfl

lemma extract_embarkedCols (reg : Reg) (data : List Record) :
    (extract_features reg data).embarkedCols
      = dummy_cols strLe id "Embarked" (data.map embF) := by
  rw [extract_features_def]
  show dummy_cols strLe id "Embarked" ((d4x reg data).map (fun r => r.embarked.getD "")) = _
  rw [d4x_map_proj reg data (fun r => r.embarked.getD "") (fun _ _ => rfl)]
  unfold d3x
  rw [List.map_map]
  rfl

lemma extract_imputerCalls (reg : Reg) (data : List Record) :
    (extract_features reg data).imputerCalls = if any_missing data then 1 else 0 := by
  rw [extract_features_def]

lemma extract_out (reg : Reg) (data : List Record) :
    (extract_features reg data).out = d5x reg data := by
  rw [extract_features_def]

lemma d5x_length (reg : Reg) (data : List Record) :
    (d5x reg data).length = data.length := by
  unfold d5x d4x
  cases any_missing data with
  | false => simp [d3x]
  | true => simp [fill_missing_ages_eq, d3x]

lemma d5x_get (reg : Reg) (data : List Record) (i : Nat) (r : Record)
    (h : data.get? i = some r) :
    ∃ s, (d5x reg data).get? i = some s ∧
      s.passengerId = r.passengerId ∧ s.survived = r.survived ∧ s.pclass = r.pclass ∧
      s.sex = r.sex ∧ s.sibsp = r.sibsp ∧ s.parch = r.parch ∧
      s.cabin = some (cabT r) ∧ s.embarked = some (embF r) ∧
      s.fare = (match r.fare with | some f => some f | none => med_of data) ∧
      s.age.isSome ∧ (r.age.isSome → s.age = r.age) ∧
      s.familySize = some (r.sibsp + r.parch) := by
  have hmem : r ∈ data := List.get?_mem h
  unfold d5x d4x
  cases hb : any_missing data with
  | false =>
    have hage : r.age.isSome := by
      simp only [any_missing] at hb
      have hr := List.any_eq_false.mp hb r hmem
      cases hx : r.age
      · exact absurd (by simp [hx]) hr
      · simp
    have hg : ((d3x data).map step5).get? i
        = some (step5 (step123 (med_of data) r)) := by
      unfold d3x
      rw [List.get?_map, List.get?_map, h]
      rfl
    refine ⟨step5 (step123 (med_of data) r), by simpa using hg,
      rfl, rfl, rfl, rfl, rfl, rfl, rfl, rfl, rfl, hage, fun _ => rfl, rfl⟩
  | true =>
    obtain ⟨a, he, ha1, ha2⟩ := fillG_spec
      (((d3x data).filter (fun r => r.age.isSome)).map (fun r => (ageX r, r.age.getD 0)))
      reg (step123 (med_of data) r)
    have hd3 : (d3x data).get? i = some (step123 (med_of data) r) := by
      unfold d3x
      rw [List.get?_map, h]
      rfl
    have hg : ((fill_missing_ages reg (d3x data)).map step5).get? i
        = some (step5 { step123 (med_of data) r with age := a }) := by
      rw [fill_missing_ages_eq, List.map_map, List.get?_map, hd3]
      simp only [Option.map_some', Function.comp_apply]
      rw [he]
    refine ⟨step5 { step123 (med_of data) r with age := a }, by simpa using hg,
      rfl, rfl, rfl, rfl, rfl, rfl, rfl, rfl, rfl, ha1, fun h2 => ha2 h2, rfl⟩

lemma out_get (reg : Reg) (data : List Record) (i : Nat) (r : Record)
    (h : data.get? i = some r) :
    ∃ s, (extract_features reg data).out.get? i = some s ∧
      s.passengerId = r.passengerId ∧ s.survived = r.survived ∧ s.pclass = r.pclass ∧
      s.sex = r.sex ∧ s.sibsp = r.sibsp ∧ s.parch = r.parch ∧
      s.cabin = some (cabT r) ∧ s.embarked = some (embF r) ∧
      s.fare = (match r.fare with | some f => some f | none => med_of data) ∧
      s.age.isSome ∧ (r.age.isSome → s.age = r.age) ∧
      s.familySize = some (r.sibsp + r.parch) := by
  rw [extract_out]
  exact d5x_get reg data i r h

lemma scale_data_length (vals : List ℚ) : (scale_data vals).length = vals.length := by
  simp [scale_data]

lemma extract_ageCol (reg : Reg) (data : List Record) :
    ∃ mean v, (extract_features reg data).ageCol
      = ("Age", ((d5x reg data).map (fun r => r.age.getD 0)).map
          (fun x => Entry.scaled x mean v)) := by
  rw [extract_features_def]
  exact ⟨_, _, rfl⟩

lemma extract_cols_length (reg : Reg) (data : List Record) :
    (extract_features reg data).cols.length =
      (data.map (fun r => r.pclass)).dedup.length
      + (data.map (fun r => r.sex)).dedup.length
      + (data.map cabT).dedup.length
      + (data.map embF).dedup.length + 5 := by
  simp only [ExtractResult.cols, List.length_append, extract_pclassCols, extract_sexCols,
    extract_cabinCols, extract_embarkedCols, dummy_cols_length, List.length_cons,
    List.length_nil]

lemma extract_cols_entry_length (reg : Reg) (data : List Record) :
    ∀ c ∈ (extract_features reg data).cols, c.2.length = data.length := by
  intro c hc
  simp only [ExtractResult.cols, List.mem_append, List.mem_cons, List.not_mem_nil,
    or_false] at hc
  rcases hc with ((((hc | hc) | hc) | hc) | hc)
  · rw [extract_pclassCols] at hc
    have := dummy_cols_entries _ _ _ _ c hc
    simpa using this
  · rw [extract_sexCols] at hc
    have := dummy_cols_entries _ _ _ _ c hc
    simpa using this
  · rw [extract_cabinCols] at hc
    have := dummy_cols_entries _ _ _ _ c hc
    simpa using this
  · rw [extract_embarkedCols] at hc
    have := dummy_cols_entries _ _ _ _ c hc
    simpa using this
  · rcases hc with hc | hc | hc | hc | hc <;>
      (rw [extract_features_def] at hc
       subst hc
       simp [scale_col, scale_data_length, d5x_length])

lemma frame_rows_extract (reg : Reg) (data : List Record) (hd : data ≠ []) :
    frame_rows (extract_features reg data).cols = data.length := by
  have hne : sortLe intLe (data.map (fun r => r.pclass)).dedup ≠ [] := by
    intro hnil
    apply hd
    have h1 : (sortLe intLe (data.map (fun r => r.pclass)).dedup).length = 0 := by
      rw [hnil]; rfl
    rw [length_sortLe] at h1
    have h2 : (data.map (fun r => r.pclass)).dedup = [] := List.length_eq_zero.mp h1
    have h3 : data.map (fun r => r.pclass) = [] := (List.dedup_eq_nil _).mp h2
    simpa using h3
  cases hl : sortLe intLe (data.map (fun r => r.pclass)).dedup with
  | nil => exact absurd hl hne
  | cons c cs =>
    have hp : (extract_features reg data).pclassCols
        = ((c :: cs).map (fun c => (("Pclass_" ++ toString c : String),
            (data.map (fun r => r.pclass)).map
              (fun v => Entry.val (if v = c then 1 else 0))))) := by
      rw [extract_pclassCols]
      unfold dummy_cols
      rw [hl]
      rfl
    simp [ExtractResult.cols, frame_rows, hp]

/-! Lemmas about the `KFold` partitioner. -/

lemma mem_kf_test (n k i x : Nat) :
    x ∈ kf_test n k i ↔
      fold_start n k i ≤ x ∧ x < fold_start n k i + fold_size n k i := by
  simp only [kf_test, List.mem_map, List.mem_range]
  constructor
  · rintro ⟨j, hj, rfl⟩
    omega
  · rintro ⟨h1, h2⟩
    exact ⟨x - fold_start n k i, by omega, by omega⟩

lemma kf_test_eq_range' (n k i : Nat) :
    kf_test n k i = List.range' (fold_start n k i) (fold_size n k i) := by
  rw [List.range'_eq_map_range]
  rfl

lemma kf_tests_flatten (n : Nat) : (kf_tests n 3).flatten = List.range n := by
  have h3 : kf_tests n 3 = [kf_test n 3 0, kf_test n 3 1, kf_test n 3 2] := rfl
  rw [h3]
  show kf_test n 3 0 ++ (kf_test n 3 1 ++ (kf_test n 3 2 ++ [])) = List.range n
  have A := List.range'_append 0 (fold_size n 3 0) (fold_size n 3 1) 1
  have B := List.range'_append 0 (fold_size n 3 1 + fold_size n 3 0) (fold_size n 3 2) 1
  have hst1 : fold_start n 3 1 = 0 + 1 * fold_size n 3 0 := by
    show fold_start n 3 0 + fold_size n 3 0 = 0 + 1 * fold_size n 3 0
    rw [show fold_start n 3 0 = 0 from rfl]
    omega
  have hst2 : fold_start n 3 2 = 0 + 1 * (fold_size n 3 1 + fold_size n 3 0) := by
    show (fold_start n 3 0 + fold_size n 3 0) + fold_size n 3 1
        = 0 + 1 * (fold_size n 3 1 + fold_size n 3 0)
    rw [show fold_start n 3 0 = 0 from rfl]
    omega
  rw [kf_test_eq_range', kf_test_eq_range', kf_test_eq_range', List.append_nil,
    hst1, hst2, show fold_start n 3 0 = 0 from rfl, ← List.append_assoc, A, B,
    List.range_eq_range']
  congr 1
  simp only [fold_size]
  split_ifs <;> omega

lemma mem_kf_train (n k i x : Nat) :
    x ∈ kf_train n k i ↔ x < n ∧ x ∉ kf_test n k i := by
  simp [kf_train, List.mem_filter, List.mem_range, List.elem_iff]

lemma kf_test_length (n k i : Nat) : (kf_test n k i).length = fold_size n k i := by
  simp [kf_test]

lemma kf_disjoint (n : Nat) :
    ∀ i j, i < 3 → j < 3 → i ≠ j →
      ∀ x, x ∈ kf_test n 3 i → x ∉ kf_test n 3 j := by
  have hs1 : fold_start n 3 1 = fold_start n 3 0 + fold_size n 3 0 := rfl
  have hs2 : fold_start n 3 2 = fold_start n 3 1 + fold_size n 3 1 := rfl
  have hs0 : fold_start n 3 0 = 0 := rfl
  intro i j hi hj hij x hxi hxj
  rw [mem_kf_test] at hxi hxj
  interval_cases i <;> interval_cases j <;> omega

lemma kf_cover (n : Nat) :
    ∀ x, x < n ↔ ∃ i, i < 3 ∧ x ∈ kf_test n 3 i := by
  intro x
  have hfl := kf_tests_flatten n
  constructor
  · intro hx
    have : x ∈ (kf_tests n 3).flatten := by
      rw [hfl]
      exact List.mem_range.mpr hx
    rw [List.mem_flatten] at this
    obtain ⟨l, hl, hxl⟩ := this
    simp only [kf_tests, List.mem_map, List.mem_range] at hl
    obtain ⟨i, hi, rfl⟩ := hl
    exact ⟨i, hi, hxl⟩
  · rintro ⟨i, hi, hx⟩
    have : x ∈ (kf_tests n 3).flatten := by
      rw [List.mem_flatten]
      exact ⟨kf_test n 3 i, by simp [kf_tests, List.mem_map]; exact ⟨i, hi, rfl⟩, hx⟩
    rw [hfl] at this
    exact List.mem_range.mp this

/-! Lemmas about the prediction combination and thresholding. -/

lemma threshold_pt (x : ℚ) :
    (if (if 1/2 < x then (1:ℚ) else x) ≤ 1/2 then (0:ℚ) else (if 1/2 < x then 1 else x))
      = if 1/2 < x then 1 else 0 := by
  rcases le_or_lt x (1/2) with h | h
  · rw [if_neg (not_lt.mpr h), if_pos h, if_neg (not_lt.mpr h)]
  · rw [if_pos h, if_neg (by norm_num), if_pos h]

lemma combine_cons (p : List ℚ) (ps : List (List ℚ)) :
    combine (p :: ps) =
      ((ps.foldl (fun acc q => acc.zipWith (fun a b => a + b) q) p).map
        (fun x => x / (((p :: ps).length : ℕ) : ℚ))).map
        (fun x => if 1/2 < x then 1 else 0) := by
  show threshold_down (threshold_up _) = _
  unfold threshold_down threshold_up
  rw [List.map_map]
  apply List.map_congr_left
  intro x _
  simp only [Function.comp_apply]
  exact threshold_pt x

lemma mem_combine_binary (preds : List (List ℚ)) (x : ℚ) (hx : x ∈ combine preds) :
    x = 0 ∨ x = 1 := by
  cases preds with
  | nil => simp [combine] at hx
  | cons p ps =>
    rw [combine_cons, List.mem_map] at hx
    obtain ⟨y, -, rfl⟩ := hx
    by_cases h : (1:ℚ)/2 < y
    · right
      rw [if_pos h]
    · left
      rw [if_neg h]

lemma zipWith_add_getD : ∀ (a b : List ℚ) (j : Nat), j < a.length → a.length = b.length →
    (a.zipWith (fun x y => x + y) b).getD j 0 = a.getD j 0 + b.getD j 0 := by
  intro a
  induction a with
  | nil =>
    intro b j h _
    cases h
  | cons x xs ih =>
    intro b j hj hl
    cases b with
    | nil => simp at hl
    | cons y ys =>
      cases j with
      | zero => simp
      | succ j2 =>
        simp only [List.zipWith_cons_cons, List.getD_cons_succ]
        exact ih ys j2 (by simpa using hj) (by simpa using hl)

lemma foldl_zip_length : ∀ (ps : List (List ℚ)) (p : List ℚ) (L : Nat), p.length = L →
    (∀ q ∈ ps, q.length = L) →
    (ps.foldl (fun acc q => acc.zipWith (fun a b => a + b) q) p).length = L := by
  intro ps
  induction ps with
  | nil =>
    intro p L hp _
    simpa using hp
  | cons q qs ih =>
    intro p L hp hq
    simp only [List.foldl_cons]
    refine ih _ L ?_ (fun r hr => hq r (by simp [hr]))
    rw [List.length_zipWith, hp, hq q (by simp)]
    exact Nat.min_self L

lemma foldl_zip_getD : ∀ (ps : List (List ℚ)) (p : List ℚ) (L j : Nat), j < L →
    p.length = L → (∀ q ∈ ps, q.length = L) →
    (ps.foldl (fun acc q => acc.zipWith (fun a b => a + b) q) p).getD j 0
      = p.getD j 0 + (ps.map (fun q => q.getD j 0)).sum := by
  intro ps
  induction ps with
  | nil =>
    intro p L j hj hp _
    simp
  | cons q qs ih =>
    intro p L j hj hp hq
    simp only [List.foldl_cons, List.map_cons, List.sum_cons]
    rw [ih (p.zipWith (fun a b => a + b) q) L j hj
        (by rw [List.length_zipWith, hp, hq q (by simp)]; exact Nat.min_self L)
        (fun r hr => hq r (by simp [hr]))]
    rw [zipWith_add_getD p q j (by omega) (by rw [hp, hq q (by simp)])]
    ring

lemma getD_map_of_lt (f : ℚ → ℚ) (l : List ℚ) (j : Nat) (h : j < l.length) :
    (l.map f).getD j 0 = f (l.getD j 0) := by
  rw [List.getD_eq_getElem?_getD, List.getElem?_map, List.getElem?_eq_getElem h,
    List.getD_eq_getElem?_getD, List.getElem?_eq_getElem h]
  rfl

lemma combine_length (p : List ℚ) (ps : List (List ℚ)) (L : Nat)
    (hp : p.length = L) (hq : ∀ q ∈ ps, q.length = L) :
    (combine (p :: ps)).length = L := by
  rw [combine_cons]
  simp [foldl_zip_length ps p L hp hq]

lemma combine_getD (p : List ℚ) (ps : List (List ℚ)) (L j : Nat) (hj : j < L)
    (hp : p.length = L) (hq : ∀ q ∈ ps, q.length = L) :
    (combine (p :: ps)).getD j 0 =
      if 1/2 < (((p :: ps).map (fun q => q.getD j 0)).sum / (((p :: ps).length : ℕ) : ℚ))
      then 1 else 0 := by
  have hsl : (ps.foldl (fun acc q => acc.zipWith (fun a b => a + b) q) p).length = L :=
    foldl_zip_length ps p L hp hq
  rw [combine_cons]
  rw [getD_map_of_lt _ _ j (by simp [hsl]; omega)]
  rw [getD_map_of_lt _ _ j (by omega)]
  rw [foldl_zip_getD ps p L j hj hp hq]
  simp only [List.map_cons, List.sum_cons]

/-! Lemmas about the cross-validation loop and `submission`. -/

lemma select_rows_length (cols : List Col) (idx : List Nat) :
    (select_rows cols idx).length = idx.length := by
  simp [select_rows]

lemma cv_fold_prediction_length (algs : List Clf) (cols : List Col) (labels : List ℚ)
    (tr te : List Nat) (halgs : algs ≠ [])
    (hlen : ∀ alg ∈ algs, ∀ X y T, (alg X y T).length = T.length) :
    (cv_fold_prediction algs cols labels tr te).length = te.length := by
  cases algs with
  | nil => exact absurd rfl halgs
  | cons a l =>
    unfold cv_fold_prediction
    simp only [List.map_cons]
    refine combine_length _ _ te.length ?_ ?_
    · rw [hlen a (by simp), select_rows_length]
    · intro q hq
      rw [List.mem_map] at hq
      obtain ⟨alg, halg, rfl⟩ := hq
      rw [hlen alg (by simp [halg]), select_rows_length]

lemma cv_predictions_length (reg : Reg) (algs : List Clf) (data : List Record)
    (hd : data ≠ []) (halgs : algs ≠ [])
    (hlen : ∀ alg ∈ algs, ∀ X y T, (alg X y T).length = T.length) :
    (cv_predictions reg algs data).length = data.length := by
  unfold cv_predictions
  rw [List.length_flatten]
  have hn : frame_rows (extract_features reg data).cols = data.length :=
    frame_rows_extract reg data hd
  rw [show (List.range 3) = [0, 1, 2] from rfl]
  simp only [List.map_cons, List.map_nil, List.sum_cons, List.sum_nil]
  rw [cv_fold_prediction_length algs _ _ _ _ halgs hlen,
    cv_fold_prediction_length algs _ _ _ _ halgs hlen,
    cv_fold_prediction_length algs _ _ _ _ halgs hlen,
    kf_test_length, kf_test_length, kf_test_length, hn]
  simp only [fold_size]
  split_ifs <;> omega

lemma mem_cv_predictions_binary (reg : Reg) (algs : List Clf) (data : List Record)
    (x : ℚ) (hx : x ∈ cv_predictions reg algs data) : x = 0 ∨ x = 1 := by
  unfold cv_predictions at hx
  rw [List.mem_flatten] at hx
  obtain ⟨l, hl, hxl⟩ := hx
  rw [List.mem_map] at hl
  obtain ⟨i, -, rfl⟩ := hl
  unfold cv_fold_prediction at hxl
  exact mem_combine_binary _ x hxl

lemma zip_map_self (g : Record → Record) :
    ∀ (l : List Record) (p : Record × Record), p ∈ l.zip (l.map g) → p.2 = g p.1 := by
  intro l
  induction l with
  | nil =>
    intro p hp
    simp at hp
  | cons a t ih =>
    intro p hp
    simp only [List.map_cons, List.zip_cons_cons, List.mem_cons] at hp
    rcases hp with rfl | hp
    · rfl
    · exact ih p hp

lemma pd_median_isSome (xs : List ℚ) (hne : xs ≠ []) : ∃ m, pd_median xs = some m := by
  unfold pd_median
  have hpos : 0 < (sortLe ratLe xs).length := by
    rw [length_sortLe]
    exact List.length_pos.mpr hne
  rw [if_neg (by omega)]
  by_cases hodd : (sortLe ratLe xs).length % 2 = 1
  · rw [if_pos hodd]
    have hlt : (sortLe ratLe xs).length / 2 < (sortLe ratLe xs).length := by omega
    exact ⟨_, List.get?_eq_get hlt⟩
  · rw [if_neg hodd]
    have h1 : (sortLe ratLe xs).length / 2 - 1 < (sortLe ratLe xs).length := by omega
    have h2 : (sortLe ratLe xs).length / 2 < (sortLe ratLe xs).length := by omega
    rw [List.get?_eq_get h1, List.get?_eq_get h2]
    exact ⟨_, rfl⟩

lemma med_of_isSome (data : List Record) (hfare : ∃ r ∈ data, r.fare.isSome) :
    ∃ m, med_of data = some m := by
  obtain ⟨r, hr, hs⟩ := hfare
  obtain ⟨f, hf⟩ := Option.isSome_iff_exists.mp hs
  apply pd_median_isSome
  apply List.ne_nil_of_mem (a := f)
  rw [List.mem_filterMap]
  exact ⟨r, hr, hf⟩

lemma dummy_cols_shape [DecidableEq α] (le : α → α → Bool) (toStr : α → String)
    (pre : String) (vals : List α) :
    List.map col_shape (dummy_cols le toStr pre vals)
      = (sortLe le vals.dedup).map
          (fun c => ((pre ++ "_" ++ toStr c : String), vals.length)) := by
  unfold dummy_cols
  rw [List.map_map]
  apply List.map_congr_left
  intro c _
  simp [col_shape]

lemma frame_shape_formula (reg : Reg) (data : List Record) :
    frame_shape (extract_features reg data).cols =
      (sortLe intLe (data.map (fun r => r.pclass)).dedup).map
        (fun c => (("Pclass" ++ "_" ++ toString c : String), data.length))
      ++ (sortLe strLe (data.map (fun r => r.sex)).dedup).map
        (fun c => (("Sex" ++ "_" ++ c : String), data.length))
      ++ (sortLe strLe (data.map cabT).dedup).map
        (fun c => (("Cabin" ++ "_" ++ c : String), data.length))
      ++ (sortLe strLe (data.map embF).dedup).map
        (fun c => (("Embarked" ++ "_" ++ c : String), data.length))
      ++ [("Age", data.length), ("Fare", data.length), ("SibSp", data.length),
          ("Parch", data.length), ("FamilySize", data.length)] := by
  unfold frame_shape ExtractResult.cols
  rw [extract_pclassCols, extract_sexCols, extract_cabinCols, extract_embarkedCols]
  simp only [List.map_append]
  rw [dummy_cols_shape, dummy_cols_shape, dummy_cols_shape, dummy_cols_shape]
  simp only [List.length_map, id_eq]
  congr 1
  rw [extract_features_def]
  simp [col_shape, scale_col, scale_data_length, d5x_length]

lemma zip_pointwise_map_eq (f : Record → β)
    (hf : ∀ (r : Record) (a : Option ℚ), f { r with age := a } = f r) :
    ∀ (l l' : List Record), l.length = l'.length →
      (∀ p ∈ l.zip l', { p.2 with age := p.1.age } = p.1) → l.map f = l'.map f := by
  intro l
  induction l with
  | nil =>
    intro l' h _
    cases l' with
    | nil => rfl
    | cons b t => simp at h
  | cons a t ih =>
    intro l' hlen hsim
    cases l' with
    | nil => simp at hlen
    | cons b t' =>
      have hab : { b with age := a.age } = a := hsim (a, b) (by simp)
      simp only [List.map_cons]
      congr 1
      · rw [← hab, hf]
      · exact ih t' (by simpa using hlen) (fun p hp => hsim p (by simp [hp]))

lemma sum_le_length (l : List ℚ) (h : ∀ x ∈ l, x ≤ 1) : l.sum ≤ (l.length : ℚ) := by
  induction l with
  | nil => simp
  | cons a t ih =>
    simp only [List.sum_cons, List.length_cons]
    have h1 := h a (by simp)
    have h2 := ih (fun x hx => h x (by simp [hx]))
    push_cast
    linarith

lemma sum_nonneg_rat (l : List ℚ) (h : ∀ x ∈ l, 0 ≤ x) : 0 ≤ l.sum := by
  induction l with
  | nil => simp
  | cons a t ih =>
    simp only [List.sum_cons]
    have h1 := h a (by simp)
    have h2 := ih (fun x hx => h x (by simp [hx]))
    linarith

/-! The claim theorems. -/

/-- C1, counterexample: the Feature Extractor does NOT always return 14
columns.  On a one-record set (one passenger class, one sex, one cabin
state, one port present) `get_dummies` produces only four one-hot columns,
so the matrix has 4 + 5 = 9 columns, not 14. -/
theorem c1_counterexample :
    (extract_features reg0 [r0]).cols.length ≠ 14 := by decide

/-- C1 (amended): for every input record set the feature matrix has exactly
as many rows as the input, and its column count is 5 (scaled numerics) plus
the number of DISTINCT observed values of Pclass, Sex, collapsed Cabin and
filled Embarked — the one-hot categories are inferred per call, not fixed.
When all ten nominal categories occur, the width is 15 (3+2+2+3+5), not
14. -/
theorem c1_feature_matrix_shape (reg : Reg) (data : List Record) :
    (∀ c ∈ (extract_features reg data).cols, c.2.length = data.length) ∧
    (extract_features reg data).cols.length =
      (data.map (fun r => r.pclass)).dedup.length
      + (data.map (fun r => r.sex)).dedup.length
      + (data.map cabT).dedup.length
      + (data.map embF).dedup.length + 5 ∧
    ((data.map (fun r => r.pclass)).toFinset = {1, 2, 3} →
     (data.map (fun r => r.sex)).toFinset = {"male", "female"} →
     (data.map cabT).toFinset = {"No", "Yes"} →
     (data.map embF).toFinset = {"C", "Q", "S"} →
     (extract_features reg data).cols.length = 15) := by
  refine ⟨extract_cols_entry_length reg data, extract_cols_length reg data, ?_⟩
  intro h1 h2 h3 h4
  rw [extract_cols_length, ← List.card_toFinset, ← List.card_toFinset,
    ← List.card_toFinset, ← List.card_toFinset, h1, h2, h3, h4]
  decide

/-- C1 witness: on a concrete three-record set exhibiting all ten one-hot
categories, the feature matrix has 15 columns. -/
theorem c1_witness : (extract_features reg0 dataFull).cols.length = 15 :=
  (c1_feature_matrix_shape reg0 dataFull).2.2 (by decide) (by decide) (by decide) (by decide)

/-- C2: the combined prediction of one fold is the elementwise arithmetic
mean of the M classifier outputs, thresholded so that mean > 1/2 gives 1
and mean ≤ 1/2 (including exactly 1/2) gives 0. -/
theorem c2_ensemble_threshold (preds : List (List ℚ)) (L j : Nat)
    (hne : preds ≠ []) (hlen : ∀ q ∈ preds, q.length = L) (hj : j < L) :
    (combine preds).getD j 0 =
      if 1/2 < ((preds.map (fun q => q.getD j 0)).sum / ((preds.length : ℕ) : ℚ))
      then 1 else 0 := by
  cases preds with
  | nil => exact absurd rfl hne
  | cons p ps =>
    exact combine_getD p ps L j hj (hlen p (by simp))
      (fun q hq => hlen q (by simp [hq]))

/-- C2 witness: two classifiers voting (1,0) on a row give mean exactly 1/2
and the combined label 0. -/
theorem c2_witness :
    ([[(1:ℚ), 0], [0, 1]] ≠ ([] : List (List ℚ))) ∧
    (∀ q ∈ [[(1:ℚ), 0], [0, 1]], q.length = 2) ∧ 0 < 2 ∧
    (combine [[(1:ℚ), 0], [0, 1]]).getD 0 0 =
      (if 1/2 < (([[(1:ℚ), 0], [0, 1]].map (fun q => q.getD 0 0)).sum
          / ((([[(1:ℚ), 0], [0, 1]].length : ℕ)) : ℚ)) then 1 else 0) :=
  ⟨by decide, by decide, by decide,
    c2_ensemble_threshold [[(1:ℚ), 0], [0, 1]] 2 0 (by decide) (by decide) (by decide)⟩

/-- C3: for N ≥ 3 the KFold partitioner (k = 3, no shuffling) yields
pairwise-disjoint test blocks, covering exactly the index range 0..N-1, in
original record order (their concatenation IS `range N`), and each fold's
train set is the complement of its test set within the range. -/
theorem c3_partitioner (N : Nat) (hN : 3 ≤ N) :
    (∀ i j, i < 3 → j < 3 → i ≠ j →
      ∀ x, x ∈ kf_test N 3 i → x ∉ kf_test N 3 j) ∧
    (∀ x, x < N ↔ ∃ i, i < 3 ∧ x ∈ kf_test N 3 i) ∧
    (kf_tests N 3).flatten = List.range N ∧
    (∀ i, i < 3 → ∀ x, x ∈ kf_train N 3 i ↔ x < N ∧ x ∉ kf_test N 3 i) :=
  ⟨kf_disjoint N, kf_cover N, kf_tests_flatten N, fun i _ x => mem_kf_train N 3 i x⟩

/-- C3 witness: the partitioner properties instantiated at N = 7. -/
theorem c3_witness :
    3 ≤ 7 ∧
    ((∀ i j, i < 3 → j < 3 → i ≠ j →
       ∀ x, x ∈ kf_test 7 3 i → x ∉ kf_test 7 3 j) ∧
     (∀ x, x < 7 ↔ ∃ i, i < 3 ∧ x ∈ kf_test 7 3 i) ∧
     (kf_tests 7 3).flatten = List.range 7 ∧
     (∀ i, i < 3 → ∀ x, x ∈ kf_train 7 3 i ↔ x < 7 ∧ x ∉ kf_test 7 3 i)) :=
  ⟨by decide, c3_partitioner 7 (by decide)⟩

/-- C4: on any record set with at least one complete-age record, the
Imputer preserves length, returns every already-aged record unchanged, and
changes nothing but the age attribute of any record. -/
theorem c4_imputer_frame (reg : Reg) (data : List Record)
    (h : ∃ r ∈ data, r.age.isSome) :
    (fill_missing_ages reg data).length = data.length ∧
    ∀ p ∈ data.zip (fill_missing_ages reg data),
      (p.1.age.isSome → p.2 = p.1) ∧ ({ p.2 with age := p.1.age } = p.1) := by
  constructor
  · rw [fill_missing_ages_eq]
    simp
  · intro p hp
    rw [fill_missing_ages_eq] at hp
    have h2 := zip_map_self _ data p hp
    obtain ⟨a, he, ha1, ha2⟩ := fillG_spec
      ((data.filter (fun r => r.age.isSome)).map (fun r => (ageX r, r.age.getD 0)))
      reg p.1
    constructor
    · intro hs
      rw [h2, he, ha2 hs]
    · rw [h2, he]

/-- C4 witness: the Imputer contract instantiated on a one-record set whose
single record has an age. -/
theorem c4_witness :
    (∃ r ∈ [r0], r.age.isSome) ∧
    ((fill_missing_ages reg0 [r0]).length = [r0].length ∧
     ∀ p ∈ [r0].zip (fill_missing_ages reg0 [r0]),
       (p.1.age.isSome → p.2 = p.1) ∧ ({ p.2 with age := p.1.age } = p.1)) :=
  ⟨by decide, c4_imputer_frame reg0 [r0] (by decide)⟩

/-- C5: for any non-empty labeled record set with binary labels and a
non-empty classifier list respecting the predict-length contract, the
concatenated fold predictions form a vector of length N, the returned score
is `1 - (sum of elementwise absolute differences) / N`, and it lies in
[0, 1]. -/
theorem c5_evaluator_accuracy (reg : Reg) (algs : List Clf) (data : List Record)
    (hd : data ≠ []) (halgs : algs ≠ [])
    (hlen : ∀ alg ∈ algs, ∀ X y T, (alg X y T).length = T.length)
    (hlab : ∀ r ∈ data, r.survived = some 0 ∨ r.survived = some 1) :
    (cv_predictions reg algs data).length = data.length ∧
    cross_validation_evaluation reg algs data
      = 1 - (((cv_predictions reg algs data).zip (labels_of data)).map
          (fun p => |p.1 - p.2|)).sum / (data.length : ℚ) ∧
    0 ≤ cross_validation_evaluation reg algs data ∧
    cross_validation_evaluation reg algs data ≤ 1 := by
  have hlength := cv_predictions_length reg algs data hd halgs hlen
  have hcv : cross_validation_evaluation reg algs data
      = 1 - (((cv_predictions reg algs data).zip (labels_of data)).map
          (fun p => |p.1 - p.2|)).sum / (data.length : ℚ) := by
    unfold cross_validation_evaluation
    rfl
  have hterm : ∀ t ∈ ((cv_predictions reg algs data).zip (labels_of data)).map
      (fun p => |p.1 - p.2|), 0 ≤ t ∧ t ≤ 1 := by
    intro t ht
    rw [List.mem_map] at ht
    obtain ⟨pr, hpr, rfl⟩ := ht
    obtain ⟨x, y⟩ := pr
    obtain ⟨hp1, hp2⟩ := List.of_mem_zip hpr
    have hb1 := mem_cv_predictions_binary reg algs data x hp1
    have hb2 : y = 0 ∨ y = 1 := by
      rw [labels_of, List.mem_map] at hp2
      obtain ⟨r, hr, rfl⟩ := hp2
      rcases hlab r hr with h | h <;> simp [h]
    refine ⟨abs_nonneg _, ?_⟩
    show |x - y| ≤ 1
    rcases hb1 with h1 | h1 <;> rcases hb2 with h2 | h2 <;> rw [h1, h2] <;> norm_num
  refine ⟨hlength, hcv, ?_, ?_⟩
  · rw [hcv]
    have hzl : (((cv_predictions reg algs data).zip (labels_of data)).map
        (fun p => |p.1 - p.2|)).length = data.length := by
      rw [List.length_map, List.length_zip, hlength, labels_of, List.length_map]
      exact Nat.min_self _
    have hsum1 : (((cv_predictions reg algs data).zip (labels_of data)).map
        (fun p => |p.1 - p.2|)).sum
        ≤ ((((cv_predictions reg algs data).zip (labels_of data)).map
            (fun p => |p.1 - p.2|)).length : ℚ) := by
      apply sum_le_length
      intro x hx
      exact (hterm x hx).2
    rw [hzl] at hsum1
    have hNpos : (0:ℚ) < (data.length : ℚ) := by
      exact_mod_cast List.length_pos.mpr hd
    have hdiv := (div_le_one hNpos).mpr hsum1
    linarith
  · rw [hcv]
    have hsum0 : 0 ≤ (((cv_predictions reg algs data).zip (labels_of data)).map
        (fun p => |p.1 - p.2|)).sum := by
      apply sum_nonneg_rat
      intro x hx
      exact (hterm x hx).1
    have hNpos : (0:ℚ) ≤ (data.length : ℚ) := by positivity
    have := div_nonneg hsum0 hNpos
    linarith

/-- C5 witness: the evaluator contract instantiated on a concrete
three-record labeled set and one concrete classifier. -/
theorem c5_witness :
    (dataFull ≠ []) ∧ (([clf0] : List Clf) ≠ []) ∧
    (∀ alg ∈ ([clf0] : List Clf), ∀ X y T, (alg X y T).length = T.length) ∧
    (∀ r ∈ dataFull, r.survived = some 0 ∨ r.survived = some 1) ∧
    ((cv_predictions reg0 [clf0] dataFull).length = dataFull.length ∧
     cross_validation_evaluation reg0 [clf0] dataFull
       = 1 - (((cv_predictions reg0 [clf0] dataFull).zip (labels_of dataFull)).map
           (fun p => |p.1 - p.2|)).sum / (dataFull.length : ℚ) ∧
     0 ≤ cross_validation_evaluation reg0 [clf0] dataFull ∧
     cross_validation_evaluation reg0 [clf0] dataFull ≤ 1) := by
  have hl : ∀ alg ∈ ([clf0] : List Clf), ∀ X y T, (alg X y T).length = T.length := by
    intro alg halg X y T
    rw [List.mem_singleton] at halg
    subst halg
    simp [clf0]
  exact ⟨by decide, List.cons_ne_nil _ _, hl, by decide,
    c5_evaluator_accuracy reg0 [clf0] dataFull (by decide) (List.cons_ne_nil _ _) hl
      (by decide)⟩

/-- C6, counterexample: `extract_features` mutates the caller's record set
beyond age filling — on a record whose raw cabin is `"C85"` the caller's
Cabin attribute has been overwritten with `"Yes"` after the call. -/
theorem c6_counterexample :
    (extract_features reg0 [r0]).out.map Record.cabin ≠ [r0].map Record.cabin := by
  decide

/-- C6 (amended): `extract_features` is a deterministic function, but it
mutates the caller's frame: the Cabin column is collapsed to Yes/No,
missing Embarked becomes "S", missing Fare becomes the frame's median fare,
missing ages are imputed, and a FamilySize column is added; the remaining
attributes (identifier, label, class, sex, sibsp, parch) and all present
fare and age values are unchanged. -/
theorem c6_extractor_effects (reg : Reg) (data : List Record) :
    (extract_features reg data).out.length = data.length ∧
    ∀ i r, data.get? i = some r →
      ∃ s, (extract_features reg data).out.get? i = some s ∧
        s.passengerId = r.passengerId ∧ s.survived = r.survived ∧ s.pclass = r.pclass ∧
        s.sex = r.sex ∧ s.sibsp = r.sibsp ∧ s.parch = r.parch ∧
        s.cabin = some (cabT r) ∧ s.embarked = some (embF r) ∧
        (r.fare.isSome → s.fare = r.fare) ∧ (r.fare = none → s.fare = med_of data) ∧
        s.age.isSome ∧ (r.age.isSome → s.age = r.age) ∧
        s.familySize = some (r.sibsp + r.parch) := by
  refine ⟨by rw [extract_out]; exact d5x_length reg data, ?_⟩
  intro i r h
  obtain ⟨s, hs, h1, h2, h3, h4, h5, h6, h7, h8, h9, h10, h11, h12⟩ := out_get reg data i r h
  refine ⟨s, hs, h1, h2, h3, h4, h5, h6, h7, h8, ?_, ?_, h10, h11, h12⟩
  · intro hfs
    obtain ⟨f, hf⟩ := Option.isSome_iff_exists.mp hfs
    rw [h9, hf]
  · intro hfn
    rw [h9, hfn]

/-- C6 witness: the amended mutation contract instantiated on a concrete
one-record set. -/
theorem c6_witness :
    (extract_features reg0 [r0]).out.length = [r0].length ∧
    ∀ i r, [r0].get? i = some r →
      ∃ s, (extract_features reg0 [r0]).out.get? i = some s ∧
        s.passengerId = r.passengerId ∧ s.survived = r.survived ∧ s.pclass = r.pclass ∧
        s.sex = r.sex ∧ s.sibsp = r.sibsp ∧ s.parch = r.parch ∧
        s.cabin = some (cabT r) ∧ s.embarked = some (embF r) ∧
        (r.fare.isSome → s.fare = r.fare) ∧ (r.fare = none → s.fare = med_of [r0]) ∧
        s.age.isSome ∧ (r.age.isSome → s.age = r.age) ∧
        s.familySize = some (r.sibsp + r.parch) :=
  c6_extractor_effects reg0 [r0]

/-- C7: if no age is missing, the Imputer is invoked zero times, and the
feature-matrix shape (column names with row counts) is identical to the
shape obtained on any record set that differs from this one only in its
Age column (in particular one on which imputation does run). -/
theorem c7_imputer_skip (reg reg' : Reg) (data data' : List Record)
    (hages : ∀ r ∈ data, r.age.isSome)
    (hlen : data.length = data'.length)
    (hsim : ∀ p ∈ data.zip data', { p.2 with age := p.1.age } = p.1) :
    (extract_features reg data).imputerCalls = 0 ∧
    frame_shape (extract_features reg data).cols
      = frame_shape (extract_features reg' data').cols := by
  constructor
  · rw [extract_imputerCalls]
    have hfalse : any_missing data = false := by
      unfold any_missing
      rw [List.any_eq_false]
      intro r hr
      have hsome := hages r hr
      cases hx : r.age
      · rw [hx] at hsome
        cases hsome
      · simp [hx]
    rw [hfalse]
    simp
  · rw [frame_shape_formula, frame_shape_formula]
    have e1 : data.map (fun r => r.pclass) = data'.map (fun r => r.pclass) :=
      zip_pointwise_map_eq (fun r => r.pclass) (fun _ _ => rfl) data data' hlen hsim
    have e2 : data.map (fun r => r.sex) = data'.map (fun r => r.sex) :=
      zip_pointwise_map_eq (fun r => r.sex) (fun _ _ => rfl) data data' hlen hsim
    have e3 : data.map cabT = data'.map cabT :=
      zip_pointwise_map_eq cabT (fun _ _ => rfl) data data' hlen hsim
    have e4 : data.map embF = data'.map embF :=
      zip_pointwise_map_eq embF (fun _ _ => rfl) data data' hlen hsim
    rw [e1, e2, e3, e4, hlen]

/-- C7 witness: a one-record set with an age next to the same record with
its age removed — the Imputer is skipped on the former and the two feature
matrices have identical shape. -/
theorem c7_witness :
    (∀ r ∈ [rA], r.age.isSome) ∧ ([rA].length = [rA'].length) ∧
    (∀ p ∈ [rA].zip [rA'], { p.2 with age := p.1.age } = p.1) ∧
    ((extract_features reg0 [rA]).imputerCalls = 0 ∧
     frame_shape (extract_features reg0 [rA]).cols
       = frame_shape (extract_features reg0 [rA']).cols) :=
  ⟨by decide, by decide, by decide,
    c7_imputer_skip reg0 reg0 [rA] [rA'] (by decide) (by decide) (by decide)⟩

/-- C8: a missing embarkation port is always filled with the fixed default
"S" and a missing fare with the median fare of the current record set; a
record with missing Age, Cabin and Embarked yields a feature row whose
Cabin_No indicator is 1, whose Embarked_S indicator is 1, and whose Age
entry is a well-defined scaled value. -/
theorem c8_scenario_b (reg : Reg) (data : List Record)
    (hfare : ∃ r ∈ data, r.fare.isSome) :
    (∃ m, med_of data = some m) ∧
    (∀ i r, data.get? i = some r →
      ∃ s, (extract_features reg data).out.get? i = some s ∧
        (r.embarked = none → s.embarked = some "S") ∧
        (r.fare = none → s.fare = med_of data)) ∧
    (∀ i r, data.get? i = some r → r.age = none → r.cabin = none → r.embarked = none →
      (∃ col, lookupCol "Cabin_No" (extract_features reg data).cabinCols = some col ∧
        col.2.get? i = some (Entry.val 1)) ∧
      (∃ col, lookupCol "Embarked_S" (extract_features reg data).embarkedCols = some col ∧
        col.2.get? i = some (Entry.val 1)) ∧
      (∃ x mean v, (extract_features reg data).ageCol.2.get? i
        = some (Entry.scaled x mean v))) := by
  refine ⟨med_of_isSome data hfare, ?_, ?_⟩
  · intro i r h
    obtain ⟨s, hs, -, -, -, -, -, -, -, hemb, hfr, -, -, -⟩ := out_get reg data i r h
    refine ⟨s, hs, ?_, ?_⟩
    · intro he
      rw [hemb]
      unfold embF
      rw [he]
      rfl
    · intro hfn
      rw [hfr, hfn]
  · intro i r h hage hcab hembn
    have hmem : r ∈ data := List.get?_mem h
    obtain ⟨hi, -⟩ := List.get?_eq_some.mp h
    refine ⟨?_, ?_, ?_⟩
    · rw [extract_cabinCols]
      have hcN : cabT r = "No" := by
        unfold cabT
        rw [hcab]
        rfl
      have hNo : "No" ∈ data.map cabT := List.mem_map.mpr ⟨r, hmem, hcN⟩
      have hfind := find_dummy strLe id "Cabin" (data.map cabT) "No" hNo (fun b _ hb => hb)
      rw [show ("Cabin" ++ "_" ++ id "No" : String) = "Cabin_No" from rfl] at hfind
      refine ⟨_, hfind, ?_⟩
      rw [List.get?_map, List.get?_map, h]
      simp [hcN]
    · rw [extract_embarkedCols]
      have hcS : embF r = "S" := by
        unfold embF
        rw [hembn]
        rfl
      have hS : "S" ∈ data.map embF := List.mem_map.mpr ⟨r, hmem, hcS⟩
      have hfind := find_dummy strLe id "Embarked" (data.map embF) "S" hS (fun b _ hb => hb)
      rw [show ("Embarked" ++ "_" ++ id "S" : String) = "Embarked_S" from rfl] at hfind
      refine ⟨_, hfind, ?_⟩
      rw [List.get?_map, List.get?_map, h]
      simp [hcS]
    · obtain ⟨mean, v, hA⟩ := extract_ageCol reg data
      rw [hA]
      have hvl : i < ((d5x reg data).map (fun r => r.age.getD 0)).length := by
        rw [List.length_map, d5x_length]
        exact hi
      obtain ⟨w, hw⟩ : ∃ w, ((d5x reg data).map (fun r => r.age.getD 0)).get? i = some w :=
        ⟨_, List.get?_eq_get hvl⟩
      rw [List.get?_map, hw]
      exact ⟨w, mean, v, rfl⟩

/-- C8 witness: the fills and scenario-B row facts instantiated on a
concrete two-record set whose second record misses Age, Cabin and
Embarked. -/
theorem c8_witness :
    (∃ r ∈ [r0, rB], r.fare.isSome) ∧
    ((∃ m, med_of [r0, rB] = some m) ∧
     (∀ i r, [r0, rB].get? i = some r →
       ∃ s, (extract_features reg0 [r0, rB]).out.get? i = some s ∧
         (r.embarked = none → s.embarked = some "S") ∧
         (r.fare = none → s.fare = med_of [r0, rB])) ∧
     (∀ i r, [r0, rB].get? i = some r → r.age = none → r.cabin = none →
        r.embarked = none →
       (∃ col, lookupCol "Cabin_No" (extract_features reg0 [r0, rB]).cabinCols = some col ∧
         col.2.get? i = some (Entry.val 1)) ∧
       (∃ col, lookupCol "Embarked_S" (extract_features reg0 [r0, rB]).embarkedCols
          = some col ∧ col.2.get? i = some (Entry.val 1)) ∧
       (∃ x mean v, (extract_features reg0 [r0, rB]).ageCol.2.get? i
         = some (Entry.scaled x mean v)))) :=
  ⟨by decide, c8_scenario_b reg0 [r0, rB] (by decide)⟩

/-- C9: after thresholding, every entry of the concatenated
cross-validation prediction vector and every Survived value emitted by
`submission` is exactly 0 or exactly 1, whatever the classifiers return. -/
theorem c9_binary_outputs (reg : Reg) (algs : List Clf)
    (classifiers : List (List (List Entry) → List ℚ)) (data data2 : List Record) :
    (cv_predictions reg algs data).Forall (fun x => x = 0 ∨ x = 1) ∧
    (submission reg classifiers data2).Forall (fun pr => pr.2 = 0 ∨ pr.2 = 1) := by
  constructor
  · rw [List.forall_iff_forall_mem]
    intro x hx
    exact mem_cv_predictions_binary reg algs data x hx
  · rw [List.forall_iff_forall_mem]
    intro pr hpr
    obtain ⟨pid, y⟩ := pr
    simp only [submission] at hpr
    have h2 := (List.of_mem_zip hpr).2
    exact mem_combine_binary _ y h2

/-- C10: `set_cabin_type` collapses Cabin to "Yes"/"No" in place, and it is
not idempotent — after a second application every record's Cabin is "Yes",
because the "No" written by the first application is itself a non-missing
value. -/
theorem c10_set_cabin_type_not_idempotent (data : List Record) :
    (∀ p ∈ data.zip (set_cabin_type data),
       p.2.cabin = some (if p.1.cabin.isSome then "Yes" else "No")) ∧
    (∀ r ∈ set_cabin_type (set_cabin_type data), r.cabin = some "Yes") := by
  constructor
  · intro p hp
    unfold set_cabin_type at hp
    have h2 := zip_map_self _ data p hp
    rw [h2]
  · intro r hr
    unfold set_cabin_type at hr
    rw [List.map_map, List.mem_map] at hr
    obtain ⟨a, -, rfl⟩ := hr
    rfl

end Titanic
